import Mathlib

/-!
Verification development for the Remote-Worldwide-Job-App repository
(src/app.py): flat-file job-listing and subscriber persistence.

Modelling conventions, used throughout:
* Python strings are Lean `String`s; the Python methods `str.lower` and
  `str.strip` are modelled character-wise on `String.data` (`lowerStr`,
  `stripStr`), which matches their behaviour on ASCII data.
* A pandas DataFrame loaded from one of the two CSV files is modelled as a
  Lean list of records in file order; the positional RangeIndex 0..n-1 is
  the list position.
* `datetime.now()` is an explicit parameter of every operation that stamps
  a timestamp (`now`), since the source obtains it ambiently.
* File I/O (save succeeding, flash messages) is out of the modelled core:
  each handler is modelled as the pure table transformation it performs
  between its load and its save, exactly as the spec carves the core out.
-/

namespace RemoteJobs

/-- Character-wise lower-casing, modelling the Python `str.lower()` calls of
src/app.py (ASCII-faithful). Defined on `String.data` so that it computes. -/
def lowerStr (s : String) : String := String.mk (s.data.map Char.toLower)

/-- Leading/trailing-whitespace removal, modelling the Python `str.strip()`
calls of src/app.py. -/
def stripStr (s : String) : String :=
  String.mk (((s.data.dropWhile Char.isWhitespace).reverse.dropWhile Char.isWhitespace).reverse)

/-! ## Subscriber repository (src/app.py: add_subscriber, unsubscribe) -/

/-- One row of data/subscribers.csv as held in the loaded DataFrame:
columns `email`, `subscribed_at`, `is_active`. -/
structure Sub where
  email : String
  subscribed_at : String
  is_active : Bool
deriving DecidableEq, Repr

/-- Outcome of `add_subscriber` (src/app.py lines 97-120), identified by the
returned (success, message) pair of the source. -/
inductive SubOutcome
  | subscribed
  | reactivated
  | alreadySubscribed
deriving DecidableEq, Repr

/-- Outcome of the unsubscribe POST handler (src/app.py lines 388-409). -/
inductive UnsubOutcome
  | unsubscribed
  | notFound
deriving DecidableEq, Repr

/-- Shallow embedding of `add_subscriber(email)` (src/app.py lines 97-120)
as the pure table transformation between its load and its save.
Line-by-line: the outer guard is `if not df.empty and email.lower() in
df['email'].str.lower().values`; `existing` is the filter
`df[df['email'].str.lower() == email.lower()]`; the inner condition is
`if not existing.empty and existing.iloc[0]['is_active']` (the head of the
filtered frame); the reactivation branch assigns `is_active = True` and
`subscribed_at = now` through `df.loc` on the mask, i.e. on **every**
matching row; the final branch appends one new lower-cased active row. -/
def add_subscriber (now e : String) (T : List Sub) : List Sub × SubOutcome :=
  if !T.isEmpty && (T.map (fun r => lowerStr r.email)).contains (lowerStr e) then
    let existing := T.filter (fun r => lowerStr r.email == lowerStr e)
    if (existing.head?.map (fun r => r.is_active)).getD false then
      (T, SubOutcome.alreadySubscribed)
    else
      (T.map (fun r =>
        if lowerStr r.email == lowerStr e then
          { r with is_active := true, subscribed_at := now }
        else r), SubOutcome.reactivated)
  else
    (T ++ [{ email := lowerStr e, subscribed_at := now, is_active := true }],
      SubOutcome.subscribed)

/-- Shallow embedding of the unsubscribe POST handler core (src/app.py lines
395-404): the guard is `if df.empty or email not in
df['email'].str.lower().values` (the route has already lower-cased `e`);
otherwise `df.loc[mask, 'is_active'] = False` deactivates every matching
row. -/
def unsubscribe (T : List Sub) (e : String) : List Sub × UnsubOutcome :=
  if T.isEmpty || !((T.map (fun r => lowerStr r.email)).contains e) then
    (T, UnsubOutcome.notFound)
  else
    (T.map (fun r =>
      if lowerStr r.email == e then { r with is_active := false } else r),
      UnsubOutcome.unsubscribed)

/-- Number of rows of `T` whose lower-cased email is `x` and which are
active: the quantity bounded by the uniqueness-while-active invariant. -/
def cntActive (x : String) (T : List Sub) : Nat :=
  (T.filter (fun r => r.is_active && (lowerStr r.email == x))).length

/-- Number of rows of `T` whose lower-cased email is `x`, active or not. -/
def cntEmail (x : String) (T : List Sub) : Nat :=
  (T.filter (fun r => lowerStr r.email == x)).length

/-- Boolean check that no two rows of `T` share a lower-cased email. -/
def distinctEmails : List Sub → Bool
  | [] => true
  | r :: rs =>
      rs.all (fun s => !(lowerStr s.email == lowerStr r.email)) && distinctEmails rs

/-! ## Job repository (src/app.py: view_jobs search/sort, add_job, delete_job) -/

/-- One row of data/joblisting.csv as held in the loaded DataFrame after
`load_jobs` has run `pd.to_datetime(..., errors='coerce')` on the
`created_at` column: an unparsable or missing timestamp is `none` (NaT),
a parsed one is abstracted to a `Nat` instant. -/
structure Job where
  position : String
  company : String
  location : String
  skills : String
  salary : String
  link : String
  created_at : Option Nat
deriving DecidableEq, Repr

/-- Token of the fragment of Python regular expressions modelled here:
a literal character or the metacharacter dot. `pandas.Series.str.contains`
hands the query of view_jobs to `re` as a **pattern**, not as a literal;
this development models the fragment of patterns built from literal
characters and the dot, which is all the stated claims need. -/
inductive RTok
  | lit (c : Char)
  | dot
deriving DecidableEq, Repr

/-- Compilation of one pattern character (dot becomes the wildcard token). -/
def parseTok (c : Char) : RTok := if c = '.' then RTok.dot else RTok.lit c

/-- Lower-casing of a token, modelling the IGNORECASE flag that
`str.contains(query, case=False)` passes to `re` (subjects are lower-cased
before matching, see `pyRegexSearchCI`). -/
def lowerTok : RTok → RTok
  | RTok.lit c => RTok.lit c.toLower
  | RTok.dot => RTok.dot

/-- Matching of a token list against a prefix of the subject. -/
def rmatchAt : List RTok → List Char → Bool
  | [], _ => true
  | _ :: _, [] => false
  | RTok.lit c :: ts, x :: xs => (c == x) && rmatchAt ts xs
  | RTok.dot :: ts, _ :: xs => rmatchAt ts xs

/-- Matching of a token list at some position of the subject, the semantics
of `re.search` for the modelled fragment. -/
def rsearch (ts : List RTok) : List Char → Bool
  | [] => rmatchAt ts []
  | x :: xs => rmatchAt ts (x :: xs) || rsearch ts xs

/-- The semantics of `series.str.contains(pat, case=False, regex=True)` on
one cell, for the modelled pattern fragment: case-insensitive `re.search`. -/
def pyRegexSearchCI (pat subj : String) : Bool :=
  rsearch ((pat.data.map parseTok).map lowerTok) (subj.data.map Char.toLower)

/-- Row predicate of the view_jobs search mask (src/app.py lines 170-174):
the query matches `position`, `company` or `skills` (OR of the three). -/
def jobMatches (q : String) (j : Job) : Bool :=
  pyRegexSearchCI q j.position || pyRegexSearchCI q j.company || pyRegexSearchCI q j.skills

/-- Shallow embedding of the search step of view_jobs (src/app.py lines
168-175): `if query and not df.empty: df = df[mask]`. `df[mask]` keeps the
matching rows in order, which is `List.filter`. -/
def search_jobs (q : String) (T : List Job) : List Job :=
  if !q.data.isEmpty && !T.isEmpty then T.filter (jobMatches q) else T

/-- Characters that are metacharacters of Python regular expressions; a
query avoiding all of them is matched by `str.contains` exactly as a
literal substring. -/
def regexSpecials : List Char :=
  ['.', '^', '$', '*', '+', '?', '(', ')', '[', ']', '|', '\\',
   Char.ofNat 123, Char.ofNat 125]

/-- Boolean prefix test on character lists (spec-side helper). -/
def boolPrefix : List Char → List Char → Bool
  | [], _ => true
  | _ :: _, [] => false
  | a :: as, b :: bs => (a == b) && boolPrefix as bs

/-- Boolean substring-occurrence test on character lists (spec-side helper). -/
def containsSub (q : List Char) : List Char → Bool
  | [] => q.isEmpty
  | x :: xs => boolPrefix q (x :: xs) || containsSub q xs

/-- Modelled from the spec wording of the search contract: `q` occurs in
`s` as a case-insensitive substring. Used to compare the source behaviour
(regex matching) with the specified behaviour (substring matching). -/
def ciSubstr (q s : String) : Bool :=
  containsSub (q.data.map Char.toLower) (s.data.map Char.toLower)

/-- Modelled from the spec wording: a row matches the query when `q` is a
case-insensitive substring of `position`, `company` or `skills`. -/
def specRowMatches (q : String) (j : Job) : Bool :=
  ciSubstr q j.position || ciSubstr q j.company || ciSubstr q j.skills

/-- Descending key comparison used by the recency sort: `optLe a b` means
the instant `a` is at most `b`, with a missing timestamp (NaT) below every
parsed one, matching `na_position='last'` of the descending sort. -/
def optLe : Option Nat → Option Nat → Bool
  | none, _ => true
  | some _, none => false
  | some a, some b => a ≤ b

/-- Stable descending insertion: `j` (earlier in input order than everything
in the list) is placed before the first element whose key is at most the key
of `j`, so equal keys keep input order. -/
def insertDesc (key : α → Option Nat) (j : α) : List α → List α
  | [] => [j]
  | x :: xs =>
      if optLe (key x) (key j) then j :: x :: xs else x :: insertDesc key j xs

/-- The stable descending sort by `key` with missing keys last: the
semantics the spec asserts for
`df.sort_values('created_at', ascending=False, na_position='last')`
(src/app.py lines 179 and 346). The pandas implementation (`nargsort`)
reverses the non-NaT positions, argsorts them ascending with the chosen
kind, reverses the result and appends the NaT positions in input order;
with a stable argsort kind that pipeline is exactly this stable insertion
sort. The source leaves `kind` at its default — numpy introsort, which
pandas documents as NOT stable — so this definition matches the shipped
call only while every partition stays in the insertion-sort regime
(fewer than 17 rows with parsed timestamps); beyond it the real sort
permutes tied rows, the subject of the C5 code-bug finding. Facts that
use only the permutation property of the output (such as C10) are
insensitive to this idealization of the tie order. -/
def sortRecentBy (key : α → Option Nat) : List α → List α
  | [] => []
  | j :: rest => insertDesc key j (sortRecentBy key rest)

/-- The recency sort of the job table, as run by view_jobs and
admin_dashboard. -/
def sort_recent (T : List Job) : List Job :=
  sortRecentBy (fun j => j.created_at) T

/-- Shallow embedding of the delete_job handler core (src/app.py lines
283-288): guard `if df.empty or job_index >= len(df) or job_index < 0`
rejects (table untouched, "Job not found!"); otherwise
`df.drop(df.index[job_index]).reset_index(drop=True)` removes the row at
that position and renumbers the RangeIndex contiguously, which on the list
model is `eraseIdx`. -/
def delete_job (T : List Job) (i : Int) : Option (List Job) :=
  if T.isEmpty || (T.length : Int) ≤ i || i < 0 then none
  else some (T.eraseIdx i.toNat)

/-- The six raw form fields of the add-job POST request. -/
structure JobForm where
  position : String
  company : String
  location : String
  skills : String
  salary : String
  link : String
deriving DecidableEq, Repr

/-- The constant message flashed by add_job when validation fails
(src/app.py line 223). -/
def requiredFieldsMsg : String := "Position and Company are required fields!"

/-- Shallow embedding of the add_job POST handler core (src/app.py lines
205-237): every field is stripped; the guard
`if not new_job["position"] or not new_job["company"]` rejects with the
constant message before anything is appended or saved; otherwise the new
job, stamped with `created_at = now`, is concatenated as the last row. -/
def add_job (T : List Job) (f : JobForm) (now : Nat) : Except String (List Job) :=
  let nj : Job :=
    { position := stripStr f.position
      company := stripStr f.company
      location := stripStr f.location
      skills := stripStr f.skills
      salary := stripStr f.salary
      link := stripStr f.link
      created_at := some now }
  if nj.position.data.isEmpty || nj.company.data.isEmpty then
    Except.error requiredFieldsMsg
  else
    Except.ok (T ++ [nj])

/-- Shallow embedding of the job list built by admin_dashboard (src/app.py
lines 342-356): the freshly loaded table carries RangeIndex 0..n-1
(modelled by `List.enum`); `sort_values` permutes the rows but keeps the
original index labels, and `for idx, row in df.iterrows()` attaches that
original label to each displayed job as `job['index']`. -/
def admin_dashboard_jobs (T : List Job) : List (Nat × Job) :=
  sortRecentBy (fun p => p.2.created_at) T.enum

/-! ## Record store (src/app.py: initialize_csv, load_jobs, load_subscribers) -/

/-- State of one CSV file as the loaders observe it: absent on disk,
present but unreadable (any exception inside the `try`), or readable with
a header and raw rows whose missing cells are `none` (NaN). -/
inductive ReadResult
  | absent
  | failure
  | ok (cols : List String) (rows : List (List (Option String)))
deriving DecidableEq, Repr

/-- The two data files of the application. -/
structure Disk where
  jobsFile : ReadResult
  subsFile : ReadResult
deriving DecidableEq, Repr

/-- Declared column set of data/joblisting.csv (src/app.py line 33). -/
def jobsColumns : List String :=
  ["position", "company", "location", "skills", "salary", "link", "created_at"]

/-- Declared column set of data/subscribers.csv (src/app.py line 38). -/
def subscribersColumns : List String :=
  ["email", "subscribed_at", "is_active"]

/-- A loaded table at CSV granularity: header plus string rows. -/
structure RawTable where
  cols : List String
  rows : List (List String)
deriving DecidableEq, Repr

/-- The `df.fillna('')` normalization: a missing cell becomes the empty
string. -/
def fillCell (c : Option String) : String := c.getD ""

/-- Shallow embedding of `initialize_csv()` (src/app.py lines 30-39): each
of the two files is created with header-only content when it does not
exist, and left alone otherwise. -/
def initialize_csv (d : Disk) : Disk :=
  { jobsFile :=
      match d.jobsFile with
      | ReadResult.absent => ReadResult.ok jobsColumns []
      | f => f
    subsFile :=
      match d.subsFile with
      | ReadResult.absent => ReadResult.ok subscribersColumns []
      | f => f }

/-- Shallow embedding of `load_jobs()` (src/app.py lines 41-60) at CSV
granularity, returning the loaded table and the disk state afterwards.
When the file exists and is readable the rows are normalized by
`df.fillna('')`; when it is absent, `initialize_csv()` is called (creating
**both** missing files) and an empty table with the declared columns is
returned; on a read failure the error is logged and an empty table with
the declared columns is returned, the disk untouched. The subsequent
`pd.to_datetime` conversion of the `created_at` column is the bridge to
the typed `Job` model and is not part of this CSV-level function. -/
def load_jobs (d : Disk) : RawTable × Disk :=
  match d.jobsFile with
  | ReadResult.ok cols rows =>
      ({ cols := cols, rows := rows.map (List.map fillCell) }, d)
  | ReadResult.absent =>
      ({ cols := jobsColumns, rows := [] }, initialize_csv d)
  | ReadResult.failure =>
      ({ cols := jobsColumns, rows := [] }, d)

/-- Shallow embedding of `load_subscribers()` (src/app.py lines 71-81):
unlike `load_jobs`, the absent-file branch returns an empty table with the
declared columns **without** calling `initialize_csv`, so no file is
created; a read failure likewise returns an empty table. -/
def load_subscribers (d : Disk) : RawTable × Disk :=
  match d.subsFile with
  | ReadResult.ok cols rows =>
      ({ cols := cols, rows := rows.map (List.map fillCell) }, d)
  | ReadResult.absent =>
      ({ cols := subscribersColumns, rows := [] }, d)
  | ReadResult.failure =>
      ({ cols := subscribersColumns, rows := [] }, d)

/-! ## Sample records used by witnesses and counterexamples -/

/-- A subscriber row with the given email, timestamp and activity flag. -/
def sampleSub (e t : String) (a : Bool) : Sub :=
  { email := e, subscribed_at := t, is_active := a }

/-- A job row with the given position and timestamp. -/
def sampleJob (p : String) (t : Option Nat) : Job :=
  { position := p, company := "Acme", location := "", skills := "go",
    salary := "", link := "", created_at := t }

/-- Executable check of the uniqueness-while-active invariant: every active
row is the only active row with its lower-cased email.
`activeUniqueB_iff` below shows it equivalent to the quantified invariant. -/
def activeUniqueB (T : List Sub) : Bool :=
  T.all (fun r => !r.is_active || decide (cntActive (lowerStr r.email) T ≤ 1))

/-! ## General-purpose lemmas -/

theorem beq_comm {α} [BEq α] [LawfulBEq α] (a b : α) : (a == b) = (b == a) := by
  by_cases h : a = b
  · subst h; rfl
  · rw [beq_eq_false_iff_ne.mpr h, beq_eq_false_iff_ne.mpr (Ne.symm h)]

theorem contains_map_iff {α} (f : α → String) (T : List α) (a : String) :
    ((T.map f).contains a = true) ↔ ∃ r ∈ T, f r = a := by
  simp [List.contains_eq_any_beq, List.any_eq_true, beq_iff_eq, eq_comm]

theorem head?_filter {α} (p : α → Bool) (l : List α) :
    (l.filter p).head? = l.find? p := by
  induction l with
  | nil => rfl
  | cons x xs ih =>
      by_cases h : p x <;> simp [List.filter_cons, List.find?_cons, h, ih]

theorem strEmpty_iff (s : String) : s.data.isEmpty = true ↔ s = "" := by
  constructor
  · intro h
    apply String.ext
    simpa using List.isEmpty_iff.mp h
  · intro h; subst h; rfl

/-! ## Counting lemmas for the subscriber invariant -/

theorem cntActive_le_cntEmail (x : String) (T : List Sub) :
    cntActive x T ≤ cntEmail x T := by
  induction T with
  | nil => simp [cntActive, cntEmail]
  | cons r rs ih =>
      simp only [cntActive, cntEmail, List.filter_cons] at *
      by_cases ha : r.is_active <;> by_cases he : (lowerStr r.email == x) = true <;>
        simp [ha, he] <;> omega

theorem cntEmail_map_of_email_eq (x : String) (g : Sub → Sub)
    (hg : ∀ r, (g r).email = r.email) (T : List Sub) :
    cntEmail x (T.map g) = cntEmail x T := by
  induction T with
  | nil => rfl
  | cons r rs ih =>
      simp only [cntEmail, List.map_cons, List.filter_cons, hg r] at *
      by_cases he : (lowerStr r.email == x) = true <;> simp [he, ih]

theorem cntEmail_eq_zero_of_not_mem (x : String) (T : List Sub)
    (h : ∀ r ∈ T, lowerStr r.email ≠ x) : cntEmail x T = 0 := by
  induction T with
  | nil => rfl
  | cons r rs ih =>
      have hr : (lowerStr r.email == x) = false :=
        beq_eq_false_iff_ne.mpr (h r (by simp))
      simp only [cntEmail, List.filter_cons, hr]
      exact ih (fun s hs => h s (by simp [hs]))

theorem cntEmail_le_one_of_distinct (x : String) (T : List Sub)
    (h : distinctEmails T = true) : cntEmail x T ≤ 1 := by
  induction T with
  | nil => simp [cntEmail]
  | cons r rs ih =>
      simp only [distinctEmails, Bool.and_eq_true, List.all_eq_true] at h
      obtain ⟨hall, hrest⟩ := h
      simp only [cntEmail, List.filter_cons]
      by_cases he : (lowerStr r.email == x) = true
      · rw [if_pos he]
        have hx : lowerStr r.email = x := beq_iff_eq.mp he
        have hz : cntEmail x rs = 0 := by
          apply cntEmail_eq_zero_of_not_mem
          intro s hs
          have hne := hall s hs
          rw [Bool.not_eq_eq_eq_not, Bool.not_true, beq_eq_false_iff_ne] at hne
          rw [← hx]; exact hne
        simp only [cntEmail] at hz
        simp [hz]
      · rw [if_neg he]
        exact ih hrest

theorem activeUniqueB_iff (T : List Sub) :
    activeUniqueB T = true ↔ ∀ x, cntActive x T ≤ 1 := by
  constructor
  · intro h x
    by_cases hz : cntActive x T = 0
    · omega
    · have hpos : 0 < (T.filter (fun r => r.is_active && (lowerStr r.email == x))).length := by
        simp only [cntActive] at hz; omega
      obtain ⟨r, hr⟩ := List.exists_mem_of_length_pos hpos
      have hr' := List.mem_filter.mp hr
      obtain ⟨hmem, hcond⟩ := hr'
      simp only [Bool.and_eq_true, beq_iff_eq] at hcond
      obtain ⟨hact, hmail⟩ := hcond
      simp only [activeUniqueB, List.all_eq_true] at h
      have := h r hmem
      rw [hact] at this
      simp only [Bool.not_true, Bool.false_or, decide_eq_true_eq] at this
      rwa [hmail] at this
  · intro h
    simp only [activeUniqueB, List.all_eq_true]
    intro r _
    cases hra : r.is_active
    · simp
    · simp only [Bool.not_true, Bool.false_or, decide_eq_true_eq]
      exact h (lowerStr r.email)

/-! ## Structural lemmas about add_subscriber and unsubscribe -/

/-- Every run of add_subscriber leaves the table alone, rewrites it by an
email-preserving row map, or appends one fresh lower-cased row; in the
append case the appended email was not present. -/
theorem add_subscriber_shape (now e : String) (T : List Sub) :
    (add_subscriber now e T).1 = T ∨
    (∃ g : Sub → Sub, (∀ r, (g r).email = r.email) ∧
       (add_subscriber now e T).1 = T.map g) ∨
    ((add_subscriber now e T).1 =
        T ++ [{ email := lowerStr e, subscribed_at := now, is_active := true }] ∧
       (T = [] ∨ (T.map (fun r => lowerStr r.email)).contains (lowerStr e) = false)) := by
  by_cases hg : (!T.isEmpty && (T.map (fun r => lowerStr r.email)).contains (lowerStr e)) = true
  · by_cases hh : (((T.filter (fun r => lowerStr r.email == lowerStr e)).head?.map
        (fun r => r.is_active)).getD false) = true
    · left
      simp only [add_subscriber]
      rw [if_pos hg, if_pos hh]
    · right; left
      refine ⟨fun r => if lowerStr r.email == lowerStr e then
        { r with is_active := true, subscribed_at := now } else r, ?_, ?_⟩
      · intro r
        by_cases hr : (lowerStr r.email == lowerStr e) = true <;> simp [hr]
      · simp only [add_subscriber]
        rw [if_pos hg, if_neg hh]
  · right; right
    constructor
    · simp only [add_subscriber]
      rw [if_neg hg]
    · have hgf : (!T.isEmpty && (T.map (fun r => lowerStr r.email)).contains (lowerStr e)) = false := by
        cases hb : (!T.isEmpty && (T.map (fun r => lowerStr r.email)).contains (lowerStr e))
        · rfl
        · exact absurd hb hg
      rw [Bool.and_eq_false_iff] at hgf
      rcases hgf with hgf | hgf
      · left
        have : T.isEmpty = true := by
          cases hb : T.isEmpty
          · rw [hb] at hgf; cases hgf
          · rfl
        exact List.isEmpty_iff.mp this
      · right; exact hgf

/-- The guard of add_subscriber/unsubscribe in terms of row membership. -/
theorem contains_lower_iff (T : List Sub) (a : String) :
    ((T.map (fun r => lowerStr r.email)).contains a = true) ↔
      ∃ r ∈ T, lowerStr r.email = a :=
  contains_map_iff (fun r => lowerStr r.email) T a

/-! ## C1 -/

/-- C1 (amended). The claim as stated fails (see
`subscribe_breaks_active_unique_cex`): when several inactive rows share a
lower-cased email, add_subscriber reactivates all of them at once. It
holds for tables with at most one row per lower-cased email, the shape of
every table these two operations build from an empty file: for such
tables, subscribe (called with a lower-cased email, as the routes do) and
unsubscribe both preserve the at-most-one-active-row-per-email invariant. -/
theorem subscribe_unsubscribe_keep_active_unique (now e : String) (T : List Sub)
    (he : lowerStr e = e) (hrow : distinctEmails T = true) :
    (∀ x, cntActive x (add_subscriber now e T).1 ≤ 1) ∧
    (∀ x, cntActive x (unsubscribe T e).1 ≤ 1) := by
  have hbound : ∀ x, cntActive x T ≤ 1 := fun x =>
    le_trans (cntActive_le_cntEmail x T) (cntEmail_le_one_of_distinct x T hrow)
  constructor
  · intro x
    rcases add_subscriber_shape now e T with h | ⟨g, hg, h⟩ | ⟨h, hfresh⟩
    · rw [h]; exact hbound x
    · rw [h]
      calc cntActive x (T.map g) ≤ cntEmail x (T.map g) := cntActive_le_cntEmail x _
        _ = cntEmail x T := cntEmail_map_of_email_eq x g hg T
        _ ≤ 1 := cntEmail_le_one_of_distinct x T hrow
    · rw [h]
      have hle : lowerStr (lowerStr e) = e := by rw [he, he]
      simp only [cntActive, List.filter_append, List.length_append]
      by_cases hx : (lowerStr (lowerStr e) == x) = true
      · have hxe : x = e := by rw [← beq_iff_eq.mp hx, hle]
        have hmail : ∀ r ∈ T, lowerStr r.email ≠ e := by
          rcases hfresh with hT | hc
          · subst hT; intro r hr; cases hr
          · intro r hr hcontra
            have hex : ∃ s ∈ T, lowerStr s.email = lowerStr e := ⟨r, hr, by rw [hcontra, he]⟩
            rw [← contains_lower_iff] at hex
            rw [hc] at hex
            cases hex
        have hTz : cntActive x T = 0 := by
          have hz := cntEmail_eq_zero_of_not_mem e T hmail
          have h2 := cntActive_le_cntEmail e T
          rw [hxe]
          omega
        have hn : (List.filter (fun r : Sub => r.is_active && (lowerStr r.email == x))
            [{ email := lowerStr e, subscribed_at := now, is_active := true }]).length = 1 := by
          simp [List.filter_cons, hx]
        rw [hn]
        simp only [cntActive] at hTz
        omega
      · have hx' : (lowerStr (lowerStr e) == x) = false := by
          cases hb : (lowerStr (lowerStr e) == x)
          · rfl
          · exact absurd hb hx
        have hn : (List.filter (fun r : Sub => r.is_active && (lowerStr r.email == x))
            [{ email := lowerStr e, subscribed_at := now, is_active := true }]).length = 0 := by
          simp [List.filter_cons, hx']
        rw [hn]
        have hb := hbound x
        simp only [cntActive] at hb
        omega
  · intro x
    by_cases hg : (T.isEmpty || !((T.map (fun r => lowerStr r.email)).contains e)) = true
    · simp only [unsubscribe]
      rw [if_pos hg]
      exact hbound x
    · simp only [unsubscribe]
      rw [if_neg hg]
      show cntActive x (T.map (fun r : Sub =>
        if lowerStr r.email == e then { r with is_active := false } else r)) ≤ 1
      have hmap : cntEmail x (T.map (fun r : Sub =>
          if lowerStr r.email == e then { r with is_active := false } else r)) = cntEmail x T := by
        apply cntEmail_map_of_email_eq
        intro r
        by_cases hr : (lowerStr r.email == e) = true <;> simp [hr]
      have h1 := cntActive_le_cntEmail x (T.map (fun r : Sub =>
        if lowerStr r.email == e then { r with is_active := false } else r))
      rw [hmap] at h1
      exact le_trans h1 (cntEmail_le_one_of_distinct x T hrow)

/-- Witness for C1 at a one-row table. -/
theorem subscribe_unsubscribe_keep_active_unique_witness :
    cntActive "a@b.co" (add_subscriber "t1" "a@b.co" [sampleSub "a@b.co" "t0" false]).1 ≤ 1 ∧
    cntActive "a@b.co" (unsubscribe [sampleSub "a@b.co" "t0" false] "a@b.co").1 ≤ 1 :=
  ⟨(subscribe_unsubscribe_keep_active_unique "t1" "a@b.co" [sampleSub "a@b.co" "t0" false]
      (by decide) (by decide)).1 "a@b.co",
   (subscribe_unsubscribe_keep_active_unique "t1" "a@b.co" [sampleSub "a@b.co" "t0" false]
      (by decide) (by decide)).2 "a@b.co"⟩

/-- Counterexample to C1 as stated: the two-row table with one lower-cased
email and no active row satisfies the uniqueness-while-active invariant,
yet subscribing that email reactivates both rows at once, leaving two
active rows with the same lower-cased email. -/
theorem subscribe_breaks_active_unique_cex :
    activeUniqueB [sampleSub "a@b.co" "t0" false, sampleSub "a@b.co" "t1" false] = true ∧
    cntActive "a@b.co"
      (add_subscriber "t2" "a@b.co"
        [sampleSub "a@b.co" "t0" false, sampleSub "a@b.co" "t1" false]).1 = 2 := by
  decide

/-! ## C2 -/

/-- C2 (amended). The claim as stated fails (see
`add_subscriber_ignores_later_active_cex`): the outcome is decided by the
**first** row whose lower-cased email matches, not by the existence of an
active row. For a lower-cased input email: if no row matches, a fresh
active lower-cased row stamped `now` is appended and the outcome is
Subscribed; if the first matching row is active, the table is unchanged
and the outcome is AlreadySubscribed; if the first matching row is
inactive, **all** matching rows are set active with `subscribed_at` reset
to `now` (other rows and fields untouched) and the outcome is
Reactivated. -/
theorem add_subscriber_first_match_decides (now e : String) (T : List Sub)
    (he : lowerStr e = e) :
    (T.find? (fun r => lowerStr r.email == e) = none →
       add_subscriber now e T =
         (T ++ [{ email := e, subscribed_at := now, is_active := true }],
          SubOutcome.subscribed)) ∧
    (∀ r, T.find? (fun r => lowerStr r.email == e) = some r → r.is_active = true →
       add_subscriber now e T = (T, SubOutcome.alreadySubscribed)) ∧
    (∀ r, T.find? (fun r => lowerStr r.email == e) = some r → r.is_active = false →
       (add_subscriber now e T).2 = SubOutcome.reactivated ∧
       ∀ i : Nat, (add_subscriber now e T).1[i]? =
         (T[i]?).map (fun r : Sub =>
           if lowerStr r.email == e then
             { email := r.email, subscribed_at := now, is_active := true }
           else r)) := by
  refine ⟨?_, ?_, ?_⟩
  · intro hnone
    have hc : (T.map (fun r => lowerStr r.email)).contains e = false := by
      cases hb : (T.map (fun r => lowerStr r.email)).contains e
      · rfl
      · exfalso
        obtain ⟨r, hr, hre⟩ := (contains_lower_iff T e).mp hb
        exact (List.find?_eq_none.mp hnone r hr) (beq_iff_eq.mpr hre)
    have hng : ¬((!T.isEmpty && (T.map (fun r => lowerStr r.email)).contains e) = true) := by
      rw [hc, Bool.and_false]
      exact Bool.false_ne_true
    simp only [add_subscriber, he]
    rw [if_neg hng]
  · intro r hr hact
    have hmem := List.mem_of_find?_eq_some hr
    have hpr : lowerStr r.email = e := by simpa using List.find?_some hr
    have hc : (T.map (fun r => lowerStr r.email)).contains e = true :=
      (contains_lower_iff T e).mpr ⟨r, hmem, hpr⟩
    have hne : T.isEmpty = false := List.isEmpty_eq_false.mpr (List.ne_nil_of_mem hmem)
    have hg : (!T.isEmpty && (T.map (fun r => lowerStr r.email)).contains e) = true := by
      rw [hne, hc]; rfl
    have hh : (((T.filter (fun r => lowerStr r.email == e)).head?.map
        (fun r => r.is_active)).getD false) = true := by
      rw [head?_filter, hr]
      simp [hact]
    simp only [add_subscriber, he]
    rw [if_pos hg, if_pos hh]
  · intro r hr hact
    have hmem := List.mem_of_find?_eq_some hr
    have hpr : lowerStr r.email = e := by simpa using List.find?_some hr
    have hc : (T.map (fun r => lowerStr r.email)).contains e = true :=
      (contains_lower_iff T e).mpr ⟨r, hmem, hpr⟩
    have hne : T.isEmpty = false := List.isEmpty_eq_false.mpr (List.ne_nil_of_mem hmem)
    have hg : (!T.isEmpty && (T.map (fun r => lowerStr r.email)).contains e) = true := by
      rw [hne, hc]; rfl
    have hh : ¬((((T.filter (fun r => lowerStr r.email == e)).head?.map
        (fun r => r.is_active)).getD false) = true) := by
      rw [head?_filter, hr]
      simp [hact]
    simp only [add_subscriber, he]
    rw [if_pos hg, if_neg hh]
    refine ⟨rfl, fun i => ?_⟩
    show (T.map (fun r : Sub =>
      if lowerStr r.email == e then
        { email := r.email, subscribed_at := now, is_active := true }
      else r))[i]? = _
    rw [List.getElem?_map]

/-- Witness for C2, one conjunct per branch: fresh subscribe, rejected
re-subscribe of an active row, reactivation of an inactive row. -/
theorem add_subscriber_first_match_decides_witness :
    add_subscriber "t1" "a@b.co" [] =
      ([{ email := "a@b.co", subscribed_at := "t1", is_active := true }],
       SubOutcome.subscribed) ∧
    add_subscriber "t1" "a@b.co" [sampleSub "a@b.co" "t0" true] =
      ([sampleSub "a@b.co" "t0" true], SubOutcome.alreadySubscribed) ∧
    (add_subscriber "t1" "a@b.co" [sampleSub "a@b.co" "t0" false]).2 =
      SubOutcome.reactivated :=
  ⟨(add_subscriber_first_match_decides "t1" "a@b.co" [] (by decide)).1 (by decide),
   (add_subscriber_first_match_decides "t1" "a@b.co" [sampleSub "a@b.co" "t0" true]
      (by decide)).2.1 (sampleSub "a@b.co" "t0" true) (by decide) (by decide),
   ((add_subscriber_first_match_decides "t1" "a@b.co" [sampleSub "a@b.co" "t0" false]
      (by decide)).2.2 (sampleSub "a@b.co" "t0" false) (by decide) (by decide)).1⟩

/-- Counterexample to C2 as stated: in a table whose first matching row is
inactive while a later one is active, an active row with the email exists,
yet add_subscriber reports Reactivated and rewrites the table instead of
reporting AlreadySubscribed and leaving it unchanged. -/
theorem add_subscriber_ignores_later_active_cex :
    cntActive "a@b.co" [sampleSub "a@b.co" "t0" false, sampleSub "a@b.co" "t1" true] = 1 ∧
    (add_subscriber "t2" "a@b.co"
      [sampleSub "a@b.co" "t0" false, sampleSub "a@b.co" "t1" true]).2 =
        SubOutcome.reactivated ∧
    (add_subscriber "t2" "a@b.co"
      [sampleSub "a@b.co" "t0" false, sampleSub "a@b.co" "t1" true]).1 ≠
        [sampleSub "a@b.co" "t0" false, sampleSub "a@b.co" "t1" true] := by
  decide

/-! ## C3 -/

/-- C3 (confirmed). For a lower-cased email: when no row matches it,
unsubscribe reports NotFound and returns the table unchanged; when some
row matches, it reports Unsubscribed and row `i` of the result is row `i`
of the input with `is_active` forced to false exactly when its lower-cased
email matches — all matching rows are deactivated and no other field of
any row changes. -/
theorem unsubscribe_deactivates_all_matching (T : List Sub) (e : String)
    (he : lowerStr e = e) :
    ((∀ r ∈ T, lowerStr r.email ≠ e) → unsubscribe T e = (T, UnsubOutcome.notFound)) ∧
    ((∃ r ∈ T, lowerStr r.email = e) →
       (unsubscribe T e).2 = UnsubOutcome.unsubscribed ∧
       ∀ i : Nat, (unsubscribe T e).1[i]? =
         (T[i]?).map (fun r : Sub =>
           if lowerStr r.email == e then
             { email := r.email, subscribed_at := r.subscribed_at, is_active := false }
           else r)) := by
  constructor
  · intro hno
    have hc : (T.map (fun r => lowerStr r.email)).contains e = false := by
      cases hb : (T.map (fun r => lowerStr r.email)).contains e
      · rfl
      · exfalso
        obtain ⟨r, hr, hre⟩ := (contains_lower_iff T e).mp hb
        exact (hno r hr) hre
    have hg : (T.isEmpty || !((T.map (fun r => lowerStr r.email)).contains e)) = true := by
      rw [hc]
      simp
    simp only [unsubscribe]
    rw [if_pos hg]
  · rintro ⟨r, hr, hre⟩
    have hc : (T.map (fun r => lowerStr r.email)).contains e = true :=
      (contains_lower_iff T e).mpr ⟨r, hr, hre⟩
    have hne : T.isEmpty = false := List.isEmpty_eq_false.mpr (List.ne_nil_of_mem hr)
    have hg : ¬((T.isEmpty || !((T.map (fun r => lowerStr r.email)).contains e)) = true) := by
      rw [hc, hne]
      simp
    simp only [unsubscribe]
    rw [if_neg hg]
    refine ⟨rfl, fun i => ?_⟩
    show (T.map (fun r : Sub =>
      if lowerStr r.email == e then
        { email := r.email, subscribed_at := r.subscribed_at, is_active := false }
      else r))[i]? = _
    rw [List.getElem?_map]

/-- Witness for C3: a missing email is NotFound on the empty table; a
present email is deactivated in place. -/
theorem unsubscribe_deactivates_all_matching_witness :
    unsubscribe [] "a@b.co" = ([], UnsubOutcome.notFound) ∧
    (unsubscribe [sampleSub "a@b.co" "t0" true] "a@b.co").2 = UnsubOutcome.unsubscribed ∧
    (unsubscribe [sampleSub "a@b.co" "t0" true] "a@b.co").1[0]? =
      some { email := "a@b.co", subscribed_at := "t0", is_active := false } := by
  have h1 := (unsubscribe_deactivates_all_matching [] "a@b.co" (by decide)).1
    (by intro r hr; cases hr)
  have h2 := (unsubscribe_deactivates_all_matching [sampleSub "a@b.co" "t0" true] "a@b.co"
    (by decide)).2 ⟨sampleSub "a@b.co" "t0" true, by simp, by decide⟩
  exact ⟨h1, h2.1, (h2.2 0).trans (by decide)⟩

/-! ## C4: search — regex lemmas -/

theorem boolPrefix_nil (l : List Char) : boolPrefix l [] = l.isEmpty := by
  cases l <;> rfl

theorem rmatchAt_lits (l : List Char) : ∀ s : List Char,
    rmatchAt (l.map RTok.lit) s = boolPrefix l s := by
  induction l with
  | nil => intro s; cases s <;> rfl
  | cons a as ih =>
      intro s
      cases s with
      | nil => rfl
      | cons b bs => simp [rmatchAt, boolPrefix, ih]

theorem rsearch_lits (l s : List Char) :
    rsearch (l.map RTok.lit) s = containsSub l s := by
  induction s with
  | nil => simp [rsearch, containsSub, rmatchAt_lits, boolPrefix_nil]
  | cons x xs ih => simp [rsearch, containsSub, rmatchAt_lits, ih]

/-- On a metacharacter-free pattern, the modelled `re.search` is exactly a
case-insensitive substring test. -/
theorem pyRegexSearchCI_eq_ciSubstr (pat s : String)
    (hsp : ∀ c ∈ pat.data, c ∉ regexSpecials) :
    pyRegexSearchCI pat s = ciSubstr pat s := by
  have hdot : ∀ c ∈ pat.data, parseTok c = RTok.lit c := by
    intro c hc
    have hcn : ¬(c = '.') := fun h => (hsp c hc) (by rw [h]; simp [regexSpecials])
    simp [parseTok, hcn]
  have h1 : pat.data.map parseTok = pat.data.map RTok.lit := List.map_congr_left hdot
  have hcomp : lowerTok ∘ RTok.lit = RTok.lit ∘ Char.toLower := funext fun c => rfl
  unfold pyRegexSearchCI ciSubstr
  rw [h1, List.map_map, hcomp, ← List.map_map, rsearch_lits]

/-- C4 (amended). The claim as stated fails (see `search_jobs_regex_cex`):
pandas `str.contains` treats the query as a regular expression, not as a
literal substring. The empty query leaves the table unchanged, and for a
non-empty query containing no regex metacharacter the search returns
exactly the subsequence of rows in which the query occurs as a
case-insensitive substring of `position`, `company` or `skills`. -/
theorem search_jobs_substring_for_plain_queries (T : List Job) (q : String) :
    search_jobs "" T = T ∧
    (q.data ≠ [] → (∀ c ∈ q.data, c ∉ regexSpecials) →
       search_jobs q T = T.filter (specRowMatches q)) := by
  constructor
  · simp [search_jobs]
  · intro hne hsp
    by_cases hTe : T.isEmpty = true
    · have hTnil : T = [] := List.isEmpty_iff.mp hTe
      subst hTnil
      simp [search_jobs]
    · have hTf : T.isEmpty = false := by
        cases hb : T.isEmpty
        · rfl
        · exact absurd hb hTe
      have hqe : q.data.isEmpty = false := by
        cases hq : q.data.isEmpty
        · rfl
        · exact absurd (List.isEmpty_iff.mp hq) hne
      have hcond : (!q.data.isEmpty && !T.isEmpty) = true := by rw [hqe, hTf]; rfl
      simp only [search_jobs]
      rw [if_pos hcond]
      apply List.filter_congr
      intro j _
      show jobMatches q j = specRowMatches q j
      unfold jobMatches specRowMatches
      rw [pyRegexSearchCI_eq_ciSubstr q j.position hsp,
          pyRegexSearchCI_eq_ciSubstr q j.company hsp,
          pyRegexSearchCI_eq_ciSubstr q j.skills hsp]

/-- Witness for C4: the empty query is the identity, and a plain query
filters by case-insensitive substring. -/
theorem search_jobs_substring_witness :
    search_jobs "" [sampleJob "dev" none] = [sampleJob "dev" none] ∧
    search_jobs "dev" [sampleJob "dev" none, sampleJob "ops" none] =
      List.filter (specRowMatches "dev") [sampleJob "dev" none, sampleJob "ops" none] :=
  ⟨(search_jobs_substring_for_plain_queries [sampleJob "dev" none] "x").1,
   (search_jobs_substring_for_plain_queries [sampleJob "dev" none, sampleJob "ops" none]
      "dev").2 (by decide) (by decide)⟩

/-- Counterexample to C4 as stated: the query a.b is kept by the search on
a row whose position is axb (the dot is a regex wildcard), although a.b is
not a case-insensitive substring of any of the three searched fields. -/
theorem search_jobs_regex_cex :
    search_jobs "a.b" [sampleJob "axb" none] = [sampleJob "axb" none] ∧
    specRowMatches "a.b" (sampleJob "axb" none) = false := by
  decide

/-! ## C5: the recency sort -/

theorem optLe_refl (a : Option Nat) : optLe a a = true := by
  cases a <;> simp [optLe]

theorem optLe_total (a b : Option Nat) : optLe a b = true ∨ optLe b a = true := by
  cases a <;> cases b <;> simp [optLe] <;> omega

theorem optLe_trans {a b c : Option Nat} (h1 : optLe a b = true) (h2 : optLe b c = true) :
    optLe a c = true := by
  cases a <;> cases b <;> cases c <;> simp [optLe] at * <;> omega

theorem mem_insertDesc {α} (key : α → Option Nat) (j y : α) (l : List α) :
    y ∈ insertDesc key j l ↔ y = j ∨ y ∈ l := by
  induction l with
  | nil => simp [insertDesc]
  | cons x xs ih =>
      simp only [insertDesc]
      by_cases h : optLe (key x) (key j) = true
      · rw [if_pos h]
        simp [List.mem_cons]
      · rw [if_neg h]
        simp only [List.mem_cons, ih]
        tauto

theorem perm_insertDesc {α} (key : α → Option Nat) (j : α) (l : List α) :
    (insertDesc key j l).Perm (j :: l) := by
  induction l with
  | nil => exact List.Perm.refl _
  | cons x xs ih =>
      simp only [insertDesc]
      by_cases h : optLe (key x) (key j) = true
      · rw [if_pos h]
      · rw [if_neg h]
        exact (List.Perm.cons x ih).trans (List.Perm.swap j x xs)

theorem perm_sortRecentBy {α} (key : α → Option Nat) (T : List α) :
    (sortRecentBy key T).Perm T := by
  induction T with
  | nil => exact List.Perm.refl _
  | cons j rest ih => exact (perm_insertDesc key j _).trans (List.Perm.cons j ih)

theorem pairwise_insertDesc {α} (key : α → Option Nat) (j : α) (l : List α)
    (hl : l.Pairwise (fun a b => optLe (key b) (key a) = true)) :
    (insertDesc key j l).Pairwise (fun a b => optLe (key b) (key a) = true) := by
  induction l with
  | nil => simp [insertDesc]
  | cons x xs ih =>
      rw [List.pairwise_cons] at hl
      obtain ⟨hx, hxs⟩ := hl
      simp only [insertDesc]
      by_cases h : optLe (key x) (key j) = true
      · rw [if_pos h]
        refine List.Pairwise.cons ?_ (List.Pairwise.cons hx hxs)
        intro y hy
        rcases List.mem_cons.mp hy with rfl | hy2
        · exact h
        · exact optLe_trans (hx y hy2) h
      · rw [if_neg h]
        refine List.Pairwise.cons ?_ (ih hxs)
        intro y hy
        rcases (mem_insertDesc key j y xs).mp hy with rfl | hy2
        · rcases optLe_total (key x) (key y) with h1 | h1
          · exact absurd h1 h
          · exact h1
        · exact hx y hy2

theorem sorted_sortRecentBy {α} (key : α → Option Nat) (T : List α) :
    (sortRecentBy key T).Pairwise (fun a b => optLe (key b) (key a) = true) := by
  induction T with
  | nil => exact List.Pairwise.nil
  | cons j rest ih => exact pairwise_insertDesc key j _ ih

theorem insertDesc_filter_ne {α} (key : α → Option Nat) (j : α) (v : Option Nat)
    (l : List α) (hj : (key j == v) = false) :
    (insertDesc key j l).filter (fun x => key x == v) =
      l.filter (fun x => key x == v) := by
  induction l with
  | nil => simp [insertDesc, List.filter_cons, hj]
  | cons x xs ih =>
      simp only [insertDesc]
      by_cases h : optLe (key x) (key j) = true
      · rw [if_pos h]
        simp [List.filter_cons, hj]
      · rw [if_neg h]
        simp only [List.filter_cons, ih]

theorem insertDesc_filter_eq {α} (key : α → Option Nat) (j : α) (v : Option Nat)
    (l : List α) (hj : (key j == v) = true) :
    (insertDesc key j l).filter (fun x => key x == v) =
      j :: l.filter (fun x => key x == v) := by
  induction l with
  | nil => simp [insertDesc, List.filter_cons, hj]
  | cons x xs ih =>
      simp only [insertDesc]
      by_cases h : optLe (key x) (key j) = true
      · rw [if_pos h]
        simp [List.filter_cons, hj]
      · rw [if_neg h]
        have hxv : (key x == v) = false := by
          cases hb : (key x == v)
          · rfl
          · exfalso
            apply h
            rw [beq_iff_eq.mp hb, beq_iff_eq.mp hj]
            exact optLe_refl v
        simp [List.filter_cons, hxv, ih]

theorem sortRecentBy_filter {α} (key : α → Option Nat) (v : Option Nat) (T : List α) :
    (sortRecentBy key T).filter (fun x => key x == v) =
      T.filter (fun x => key x == v) := by
  induction T with
  | nil => rfl
  | cons j rest ih =>
      simp only [sortRecentBy]
      by_cases hj : (key j == v) = true
      · rw [insertDesc_filter_eq key j v _ hj, ih, List.filter_cons, if_pos hj]
      · have hj' : (key j == v) = false := by
          cases hb : (key j == v)
          · rfl
          · exact absurd hb hj
        rw [insertDesc_filter_ne key j v _ hj', ih, List.filter_cons, if_neg hj]

theorem sortRecentBy_of_sorted {α} (key : α → Option Nat) (l : List α)
    (hl : l.Pairwise (fun a b => optLe (key b) (key a) = true)) :
    sortRecentBy key l = l := by
  induction l with
  | nil => rfl
  | cons j rest ih =>
      rw [List.pairwise_cons] at hl
      obtain ⟨hj, hrest⟩ := hl
      simp only [sortRecentBy]
      rw [ih hrest]
      cases rest with
      | nil => rfl
      | cons y ys =>
          simp only [insertDesc]
          rw [if_pos (hj y (by simp))]

/-- C5 (code_bug). The claimed properties, proved for the stable-kind
idealization `sortRecentBy`: the recency sort is a permutation of the
table, sorted descending by `created_at` with missing/unparsable
timestamps below every parsed one (hence last); for every key value —
a parsed instant or the missing marker — the subsequence of rows carrying
that value is exactly the input subsequence, so equal, missing and
unparsable timestamps retain their relative input order; and sorting
twice equals sorting once. The spec declares these the contract of
sort_recent, and they are what `kind='stable'` delivers; the source
instead leaves `sort_values` at its default kind, numpy introsort, which
pandas documents as unstable — on a table with 17 or more rows sharing a
created_at value the tied rows are permuted and re-sorting permutes them
again, so the shipped code violates the claim and realizes this theorem
only below the 17-element insertion-sort threshold. -/
theorem sort_recent_stable_descending_idempotent (T : List Job) :
    (∀ v : Option Nat,
       (sort_recent T).filter (fun j => j.created_at == v) =
         T.filter (fun j => j.created_at == v)) ∧
    (sort_recent T).Pairwise (fun a b => optLe b.created_at a.created_at = true) ∧
    sort_recent (sort_recent T) = sort_recent T ∧
    (sort_recent T).Perm T := by
  refine ⟨fun v => sortRecentBy_filter _ v T, sorted_sortRecentBy _ T, ?_,
    perm_sortRecentBy _ T⟩
  exact sortRecentBy_of_sorted _ _ (sorted_sortRecentBy _ T)

/-! ## C6 and C10: positional delete -/

/-- A delete at an in-range position erases exactly the row at that
position, the later rows moving up by one. -/
theorem delete_job_in_range (T : List Job) (i : Nat) (h : i < T.length) :
    delete_job T (i : Int) = some (T.take i ++ T.drop (i + 1)) := by
  have hne : T.isEmpty = false := by
    rw [List.isEmpty_eq_false]
    intro hT
    subst hT
    simp at h
  simp only [delete_job]
  rw [if_neg]
  · rw [Int.toNat_natCast, List.eraseIdx_eq_take_drop_succ]
  · simp only [hne, Bool.or_eq_true, decide_eq_true_eq]
    intro hcon
    rcases hcon with (hc | hc) | hc
    · cases hc
    · omega
    · omega

/-- C6 (confirmed). delete_job rejects with NotFound, leaving the table
untouched, exactly when the index is negative or at least the row count;
for an in-range index it removes the row at that position and the
remaining rows keep their relative order under the renumbered contiguous
indices (row positions 0..n-2 of the result). -/
theorem delete_job_guard_and_erase (T : List Job) (i : Int) :
    (delete_job T i = none ↔ (i < 0 ∨ (T.length : Int) ≤ i)) ∧
    (0 ≤ i → i < (T.length : Int) →
       delete_job T i = some (T.take i.toNat ++ T.drop (i.toNat + 1))) := by
  constructor
  · constructor
    · intro h
      by_cases hc : (T.isEmpty || decide ((T.length : Int) ≤ i) || decide (i < 0)) = true
      · simp only [Bool.or_eq_true, decide_eq_true_eq] at hc
        rcases hc with (hc | hc) | hc
        · have hT : T = [] := List.isEmpty_iff.mp hc
          subst hT
          rcases Int.lt_or_le i 0 with h1 | h1
          · exact Or.inl h1
          · exact Or.inr (by simpa using h1)
        · exact Or.inr hc
        · exact Or.inl hc
      · simp only [delete_job] at h
        rw [if_neg hc] at h
        cases h
    · intro h
      simp only [delete_job]
      rw [if_pos]
      simp only [Bool.or_eq_true, decide_eq_true_eq]
      rcases h with h | h
      · exact Or.inr h
      · exact Or.inl (Or.inr h)
  · intro h0 hlen
    have hi : i = ((i.toNat : Nat) : Int) := (Int.toNat_of_nonneg h0).symm
    rw [hi]
    exact delete_job_in_range T i.toNat (by omega)

/-- Witness for C6, the three-row scenario of the spec: deleting index 1
keeps rows 0 and 2, the latter moving to position 1. -/
theorem delete_job_guard_and_erase_witness :
    delete_job [sampleJob "a" none, sampleJob "b" none, sampleJob "c" none] 1 =
      some [sampleJob "a" none, sampleJob "c" none] :=
  ((delete_job_guard_and_erase [sampleJob "a" none, sampleJob "b" none, sampleJob "c" none]
      1).2 (by decide) (by decide)).trans (by decide)

/-! ## C7: add_job validation -/

/-- C7 (amended). The claim as stated fails (see
`add_job_constant_error_cex`): the rejection message is one constant
string naming both required fields, whichever of them is missing, so it
does not list the missing field(s). Validation rejects — before anything
is appended or saved — exactly when `position` or `company` is empty
after trimming; otherwise the job is stamped with `created_at = now` and
appended as the new last row, the existing rows untouched. -/
theorem add_job_validates_and_appends (T : List Job) (f : JobForm) (now : Nat) :
    ((stripStr f.position = "" ∨ stripStr f.company = "") →
       add_job T f now = Except.error requiredFieldsMsg) ∧
    (stripStr f.position ≠ "" → stripStr f.company ≠ "" →
       add_job T f now = Except.ok (T ++
         [{ position := stripStr f.position, company := stripStr f.company,
            location := stripStr f.location, skills := stripStr f.skills,
            salary := stripStr f.salary, link := stripStr f.link,
            created_at := some now }])) := by
  constructor
  · intro h
    have hcond : ((stripStr f.position).data.isEmpty ||
        (stripStr f.company).data.isEmpty) = true := by
      rcases h with h | h
      · rw [(strEmpty_iff _).mpr h]
        rfl
      · rw [(strEmpty_iff _).mpr h]
        simp
    simp only [add_job]
    rw [if_pos hcond]
  · intro h1 h2
    have hp : (stripStr f.position).data.isEmpty = false := by
      cases hb : (stripStr f.position).data.isEmpty
      · rfl
      · exact absurd ((strEmpty_iff _).mp hb) h1
    have hc : (stripStr f.company).data.isEmpty = false := by
      cases hb : (stripStr f.company).data.isEmpty
      · rfl
      · exact absurd ((strEmpty_iff _).mp hb) h2
    have hcond : ¬(((stripStr f.position).data.isEmpty ||
        (stripStr f.company).data.isEmpty) = true) := by
      rw [hp, hc]
      exact Bool.false_ne_true
    simp only [add_job]
    rw [if_neg hcond]

/-- Witness for C7: a job with whitespace-padded but non-empty required
fields is trimmed, stamped and appended. -/
theorem add_job_validates_and_appends_witness :
    add_job [] { position := " Engineer ", company := "Acme", location := "",
                 skills := "", salary := "", link := "" } 5 =
      Except.ok [{ position := "Engineer", company := "Acme", location := "",
                   skills := "", salary := "", link := "", created_at := some 5 }] :=
  ((add_job_validates_and_appends []
      { position := " Engineer ", company := "Acme", location := "",
        skills := "", salary := "", link := "" } 5).2
    (by decide) (by decide)).trans rfl

/-- Counterexample to C7 as stated: with only position missing and with
only company missing, add_job rejects with the same constant message, so
the error cannot be listing which required field(s) are missing. -/
theorem add_job_constant_error_cex :
    add_job [] { position := "", company := "Acme", location := "", skills := "",
                 salary := "", link := "" } 0 = Except.error requiredFieldsMsg ∧
    add_job [] { position := "Engineer", company := "", location := "", skills := "",
                 salary := "", link := "" } 0 = Except.error requiredFieldsMsg :=
  ⟨rfl, rfl⟩

/-! ## C8: append then delete at the new index -/

/-- C8 (confirmed). Appending a valid job and deleting at the newly
inserted index — the last position, `|T|` — returns exactly the original
table (so in particular the two are equal ignoring the stamped
timestamp, which leaves with the deleted row). -/
theorem append_then_delete_last_roundtrip (T : List Job) (f : JobForm) (now : Nat)
    (h1 : stripStr f.position ≠ "") (h2 : stripStr f.company ≠ "")
    (T' : List Job) (hok : add_job T f now = Except.ok T') :
    delete_job T' (T.length : Int) = some T := by
  have hp : (stripStr f.position).data.isEmpty = false := by
    cases hb : (stripStr f.position).data.isEmpty
    · rfl
    · exact absurd ((strEmpty_iff _).mp hb) h1
  have hc : (stripStr f.company).data.isEmpty = false := by
    cases hb : (stripStr f.company).data.isEmpty
    · rfl
    · exact absurd ((strEmpty_iff _).mp hb) h2
  have hcond : ¬(((stripStr f.position).data.isEmpty ||
      (stripStr f.company).data.isEmpty) = true) := by
    rw [hp, hc]
    exact Bool.false_ne_true
  simp only [add_job] at hok
  rw [if_neg hcond] at hok
  have hT' : T' = T ++ [{ position := stripStr f.position, company := stripStr f.company,
                          location := stripStr f.location, skills := stripStr f.skills,
                          salary := stripStr f.salary, link := stripStr f.link,
                          created_at := some now }] := (Except.ok.inj hok).symm
  subst hT'
  have hlen : T.length < (T ++ [({ position := stripStr f.position,
                                   company := stripStr f.company, location := stripStr f.location,
                                   skills := stripStr f.skills, salary := stripStr f.salary,
                                   link := stripStr f.link, created_at := some now } : Job)]).length := by
    simp
  rw [delete_job_in_range _ T.length hlen, List.take_left, List.drop_append 1]
  rw [List.drop_one, List.tail_cons, List.append_nil]

/-- Witness for C8 on a one-row table. -/
theorem append_then_delete_last_roundtrip_witness :
    delete_job [sampleJob "a" (some 1),
        { position := "Engineer", company := "Acme", location := "", skills := "",
          salary := "", link := "", created_at := some 5 }] ((1 : Nat) : Int) =
      some [sampleJob "a" (some 1)] :=
  append_then_delete_last_roundtrip [sampleJob "a" (some 1)]
    { position := "Engineer", company := "Acme", location := "", skills := "",
      salary := "", link := "" } 5 (by decide) (by decide) _ rfl

/-! ## C9: the record store -/

/-- C9 (amended). The claim as stated fails (see
`load_subscribers_no_create_cex`): only the jobs loader creates missing
files. load_jobs on an absent file calls initialize_csv — creating both
missing CSVs with header-only content — and returns an empty table with
the declared columns; load_subscribers on an absent file returns an empty
table with the declared columns but leaves the disk untouched; both
loaders return an empty table with the declared columns on a read failure
instead of propagating it; and on a successful read every missing cell is
normalized to the empty string. -/
theorem load_absent_failure_normalize (d : Disk) :
    (d.jobsFile = ReadResult.absent →
       load_jobs d = ({ cols := jobsColumns, rows := [] }, initialize_csv d) ∧
       (initialize_csv d).jobsFile = ReadResult.ok jobsColumns []) ∧
    (d.jobsFile = ReadResult.failure →
       load_jobs d = ({ cols := jobsColumns, rows := [] }, d)) ∧
    (∀ cols rows, d.jobsFile = ReadResult.ok cols rows →
       load_jobs d = ({ cols := cols, rows := rows.map (List.map fillCell) }, d)) ∧
    (d.subsFile = ReadResult.absent →
       load_subscribers d = ({ cols := subscribersColumns, rows := [] }, d)) ∧
    (d.subsFile = ReadResult.failure →
       load_subscribers d = ({ cols := subscribersColumns, rows := [] }, d)) ∧
    (∀ cols rows, d.subsFile = ReadResult.ok cols rows →
       load_subscribers d = ({ cols := cols, rows := rows.map (List.map fillCell) }, d)) ∧
    (fillCell none = "" ∧ ∀ s, fillCell (some s) = s) := by
  obtain ⟨jf, sf⟩ := d
  refine ⟨?_, ?_, ?_, ?_, ?_, ?_, rfl, fun s => rfl⟩
  · intro h
    cases h
    exact ⟨rfl, rfl⟩
  · intro h
    cases h
    rfl
  · intro cols rows h
    cases h
    rfl
  · intro h
    cases h
    rfl
  · intro h
    cases h
    rfl
  · intro cols rows h
    cases h
    rfl

/-- Witness for C9 at the all-absent and all-failed disks. -/
theorem load_absent_failure_normalize_witness :
    load_jobs { jobsFile := ReadResult.failure, subsFile := ReadResult.failure } =
      ({ cols := jobsColumns, rows := [] },
       { jobsFile := ReadResult.failure, subsFile := ReadResult.failure }) ∧
    load_jobs { jobsFile := ReadResult.absent, subsFile := ReadResult.absent } =
      ({ cols := jobsColumns, rows := [] },
       initialize_csv { jobsFile := ReadResult.absent, subsFile := ReadResult.absent }) :=
  ⟨(load_absent_failure_normalize
      { jobsFile := ReadResult.failure, subsFile := ReadResult.failure }).2.1 rfl,
   ((load_absent_failure_normalize
      { jobsFile := ReadResult.absent, subsFile := ReadResult.absent }).1 rfl).1⟩

/-- Counterexample to C9 as stated: loading an absent subscribers file
returns the empty table but leaves the file uncreated, while the jobs
loader does create its missing file. -/
theorem load_subscribers_no_create_cex :
    load_subscribers { jobsFile := ReadResult.absent, subsFile := ReadResult.absent } =
      ({ cols := subscribersColumns, rows := [] },
       { jobsFile := ReadResult.absent, subsFile := ReadResult.absent }) ∧
    (load_jobs { jobsFile := ReadResult.absent, subsFile := ReadResult.absent }).2.jobsFile =
      ReadResult.ok jobsColumns [] :=
  ⟨rfl, rfl⟩

/-! ## C10: dashboard index labels -/

/-- C10 (confirmed). Every (index, job) pair shown by the admin dashboard
carries the job's position in the unsorted on-disk table: the recency sort
permutes the rows but keeps the original labels, so looking the label up
in the stored table yields the displayed job, and delete_job at the
displayed label removes exactly the displayed job, the other rows
surviving in order. -/
theorem dashboard_index_is_storage_index (T : List Job) (p : Nat × Job)
    (hp : p ∈ admin_dashboard_jobs T) :
    T[p.1]? = some p.2 ∧
    delete_job T (p.1 : Int) = some (T.take p.1 ++ T.drop (p.1 + 1)) := by
  simp only [admin_dashboard_jobs] at hp
  have hperm := perm_sortRecentBy (fun q : Nat × Job => q.2.created_at) T.enum
  have hmem : p ∈ T.enum := hperm.mem_iff.mp hp
  obtain ⟨i, x⟩ := p
  obtain ⟨hlt, hxe⟩ := List.mem_enum hmem
  constructor
  · rw [List.getElem?_eq_getElem hlt, hxe]
  · exact delete_job_in_range T i hlt

/-- Witness for C10: on a two-row table whose second row is more recent,
the dashboard shows it first with label 1, and deleting at 1 removes it. -/
theorem dashboard_index_is_storage_index_witness :
    ([sampleJob "a" (some 1), sampleJob "b" (some 5)] : List Job)[(1 : Nat)]? =
      some (sampleJob "b" (some 5)) ∧
    delete_job [sampleJob "a" (some 1), sampleJob "b" (some 5)] ((1 : Nat) : Int) =
      some (List.take 1 [sampleJob "a" (some 1), sampleJob "b" (some 5)] ++
        List.drop 2 [sampleJob "a" (some 1), sampleJob "b" (some 5)]) :=
  dashboard_index_is_storage_index [sampleJob "a" (some 1), sampleJob "b" (some 5)]
    (1, sampleJob "b" (some 5)) (by decide)

end RemoteJobs
